import Mathlib

/-!
Verification of the two-layer caching / request-deduplication engine of
`@apollo/datasource-rest` (files `RESTDataSource.ts` and `HTTPCache.ts`).

The development shallowly embeds the relevant parts of the source:

* the per-request cache-key and deduplication-policy computation
  (`RESTDataSource.cacheKeyFor`, `RESTDataSource.requestDeduplicationPolicyFor`);
* the request-deduplication coordinator of `RESTDataSource.fetch`
  (the `deduplicationPromises` map together with promise settlement and the
  per-recipient deep copy `cloneDataSourceFetchResult`), modelled as an
  explicit state machine over arrival / settlement events with an explicit
  heap for parsed bodies so that aliasing and deep copies are observable;
* `HTTPCache.fetch`, `HTTPCache.handlePolicyCache`, `HTTPCache.handleDirectCache`
  and `HTTPCache.storeResponseAndReturnClone`, with the external collaborators
  (the origin `fetch` capability, the key-value store and the
  `http-cache-semantics` `CachePolicy` engine) supplied as opaque parameters,
  and with every origin call, store read and store write logged so that the
  theorems can count them.

JavaScript details that matter are modelled explicitly: `??` is `Option.getD`,
numeric truthiness (`if (x)`) treats `0` as false, `Math.round(ms / 1000)` on a
non-negative millisecond count is `(ms + 500) / 1000` in integer arithmetic.
-/

namespace DataSourceRest

/-! ## Small association-list helpers (the `Map` / key-value store carriers) -/

def tLookup : List (String × Nat) → String → Option Nat
  | [], _ => none
  | (k, v) :: rest, key => if k = key then some v else tLookup rest key

def tErase : List (String × Nat) → String → List (String × Nat)
  | [], _ => []
  | (k, v) :: rest, key => if k = key then tErase rest key else (k, v) :: tErase rest key

def tInsert (m : List (String × Nat)) (key : String) (v : Nat) : List (String × Nat) :=
  tErase m key ++ [(key, v)]

/-! ## Request model for key / deduplication-policy computation

`cacheKeyFor` and `requestDeduplicationPolicyFor` only consult `request.method`
and `request.cacheKey`, and the URL through `url.toString()`; the URL is
therefore modelled as its string form. -/

structure KeyRequest where
  method : Option String
  cacheKey : Option String
deriving DecidableEq, Repr

/-- `RESTDataSource.cacheKeyFor` (default implementation):
`return request.cacheKey ?? `${request.method ?? 'GET'} ${url}`;` -/
def cacheKeyFor (url : String) (request : KeyRequest) : String :=
  request.cacheKey.getD (request.method.getD "GET" ++ " " ++ url)

inductive DedupPolicy where
  | dedupDuringRequestLifetime (deduplicationKey : String)
  | dedupUntilInvalidated (deduplicationKey : String)
  | doNotDedup (invalidateDeduplicationKeys : List String)
deriving DecidableEq, Repr

def DedupPolicy.deduplicationKeyOf : DedupPolicy → Option String
  | .dedupDuringRequestLifetime k => some k
  | .dedupUntilInvalidated k => some k
  | .doNotDedup _ => none

/-- `RESTDataSource.requestDeduplicationPolicyFor` (default implementation):
for `GET`/`HEAD` methods return
`{ policy: 'deduplicate-during-request-lifetime', deduplicationKey: cacheKey }`,
otherwise `{ policy: 'do-not-deduplicate', invalidateDeduplicationKeys:
[this.cacheKeyFor(url, {...request, method: 'GET'}),
 this.cacheKeyFor(url, {...request, method: 'HEAD'})] }`. -/
def requestDeduplicationPolicyFor (url : String) (request : KeyRequest) : DedupPolicy :=
  let method := request.method.getD "GET"
  let cacheKey := cacheKeyFor url request
  if method = "GET" ∨ method = "HEAD" then
    .dedupDuringRequestLifetime cacheKey
  else
    .doNotDedup
      [cacheKeyFor url { request with method := some "GET" },
       cacheKeyFor url { request with method := some "HEAD" }]

/-- Modelled from the spec (claim C7 as amended): the cache key is the explicit
override if provided and otherwise `method + " " + URL`. -/
def specCacheKey (url : String) (request : KeyRequest) : String :=
  match request.cacheKey with
  | some k => k
  | none => request.method.getD "GET" ++ " " ++ url

/-- Modelled from the spec (claim C7 as amended): GET and HEAD requests
deduplicate during the request lifetime under the cache key itself (whose
default form already begins with the method); every other method does not
deduplicate and invalidates the deduplication keys that the corresponding GET
and HEAD requests would use. -/
def specDedupPolicy (url : String) (request : KeyRequest) : DedupPolicy :=
  let m := request.method.getD "GET"
  if m = "GET" ∨ m = "HEAD" then
    .dedupDuringRequestLifetime (specCacheKey url request)
  else
    .doNotDedup
      [specCacheKey url { request with method := some "GET" },
       specCacheKey url { request with method := some "HEAD" }]

/-! ## The request-deduplication coordinator of `RESTDataSource.fetch`

The body of `RESTDataSource.fetch` after the deduplication policy has been
computed is (source, `RESTDataSource.ts`):

* sharing policies (`deduplicate-during-request-lifetime`,
  `deduplicate-until-invalidated`): look the deduplication key up in
  `this.deduplicationPromises`;
  - on a hit, return `previousRequestPromise.then((result) =>
    this.cloneDataSourceFetchResult(result, {policy,
    deduplicatedAgainstPreviousRequest: true}))`;
  - on a miss, start `performRequest()`, register the pending promise under
    the key, `await` it, return `cloneDataSourceFetchResult(result, {...,
    deduplicatedAgainstPreviousRequest: false})`, and in a `finally` block
    delete the key — but only when the policy is
    `deduplicate-during-request-lifetime`;
* `do-not-deduplicate`: delete every listed `invalidateDeduplicationKeys`
  entry, then return `performRequest()`'s result spread into a new object
  (no clone of `parsedBody`).

`cloneDataSourceFetchResult` spreads the result object and replaces only
`parsedBody` with `cloneParsedBody` (a deep copy); `response` and
`httpCache.cacheWritePromise` stay the same objects.

The embedding is a state machine.  JavaScript executes each of the regions
between `await` points atomically, so the lookup / register sequence is one
atomic arrival step, and a promise settlement runs the owner continuation
(clone, `finally` delete) and every waiter callback (clone) in one step.
Parsed bodies live in an explicit heap (`heap : List String`); an address is
an object identity, `cloneParsedBody` allocates a fresh address holding the
same value, and `respId` / `cwpId` model the (uncloned) identities of the
`FetcherResponse` and of the cache-write promise.  `origins` counts
`performRequest()` invocations, that is, underlying origin-fetching
operations. -/

inductive SharePolicy where
  | duringLifetime
  | untilInvalidated
deriving DecidableEq, Repr

structure FetchRes where
  bodyAddr : Nat
  respId : Nat
  cwpId : Option Nat
deriving DecidableEq, Repr

inductive PromSt where
  | pendingP
  | okP (r : FetchRes)
  | errP
deriving DecidableEq, Repr

inductive CallerSt where
  | waitingShared (pid : Nat)
  | awaitingOwn (pid : Nat) (pol : SharePolicy) (key : String)
  | awaitingNoDedup (pid : Nat)
  | doneOk (r : FetchRes) (dedup : Bool) (viaSharing : Bool)
  | doneErr
deriving DecidableEq, Repr

structure MState where
  table : List (String × Nat)
  proms : List PromSt
  heap : List String
  origins : Nat
  callers : List CallerSt
deriving DecidableEq, Repr

def initM : MState := ⟨[], [], [], 0, []⟩

inductive DEvent where
  | arriveShared (pol : SharePolicy) (key : String)
  | arriveNoDedup (invalidateKeys : List String)
  | settleOk (pid : Nat) (body : String) (respId : Nat) (cwpId : Option Nat)
  | settleErr (pid : Nat)
deriving DecidableEq, Repr

/-- Settlement fan-out on success: walk the callers; the owner and every
waiter of promise `pid` receive a result whose `parsedBody` is a fresh deep
copy (addresses `a`, `a+1`, ... in walk order), a `do-not-deduplicate` caller
receives the promise's own result object (`retained`, no copy), and the
`finally` block of each `deduplicate-during-request-lifetime` owner deletes
its key.  Returns (new callers, next free address, keys to delete). -/
def deliverOk (pid retained respId : Nat) (cwpId : Option Nat) :
    List CallerSt → Nat → List CallerSt × Nat × List String
  | [], a => ([], a, [])
  | .waitingShared p :: cs, a =>
    if p = pid then
      let r := deliverOk pid retained respId cwpId cs (a + 1)
      (.doneOk ⟨a, respId, cwpId⟩ true true :: r.1, r.2)
    else
      let r := deliverOk pid retained respId cwpId cs a
      (.waitingShared p :: r.1, r.2)
  | .awaitingOwn p pol key :: cs, a =>
    if p = pid then
      let r := deliverOk pid retained respId cwpId cs (a + 1)
      (.doneOk ⟨a, respId, cwpId⟩ false true :: r.1, r.2.1,
        if pol = .duringLifetime then key :: r.2.2 else r.2.2)
    else
      let r := deliverOk pid retained respId cwpId cs a
      (.awaitingOwn p pol key :: r.1, r.2)
  | .awaitingNoDedup p :: cs, a =>
    if p = pid then
      let r := deliverOk pid retained respId cwpId cs a
      (.doneOk ⟨retained, respId, cwpId⟩ false false :: r.1, r.2)
    else
      let r := deliverOk pid retained respId cwpId cs a
      (.awaitingNoDedup p :: r.1, r.2)
  | .doneOk r0 d v :: cs, a =>
    let r := deliverOk pid retained respId cwpId cs a
    (.doneOk r0 d v :: r.1, r.2)
  | .doneErr :: cs, a =>
    let r := deliverOk pid retained respId cwpId cs a
    (.doneErr :: r.1, r.2)

/-- Settlement fan-out on rejection: the owner rethrows after its `finally`
block (which deletes the key only for `deduplicate-during-request-lifetime`),
and each waiter's `.then` handler is skipped so the rejection propagates. -/
def deliverErr (pid : Nat) : List CallerSt → List CallerSt × List String
  | [] => ([], [])
  | .waitingShared p :: cs =>
    let r := deliverErr pid cs
    if p = pid then (.doneErr :: r.1, r.2) else (.waitingShared p :: r.1, r.2)
  | .awaitingOwn p pol key :: cs =>
    let r := deliverErr pid cs
    if p = pid then
      (.doneErr :: r.1, if pol = .duringLifetime then key :: r.2 else r.2)
    else (.awaitingOwn p pol key :: r.1, r.2)
  | .awaitingNoDedup p :: cs =>
    let r := deliverErr pid cs
    if p = pid then (.doneErr :: r.1, r.2) else (.awaitingNoDedup p :: r.1, r.2)
  | .doneOk r0 d v :: cs =>
    let r := deliverErr pid cs
    (.doneOk r0 d v :: r.1, r.2)
  | .doneErr :: cs =>
    let r := deliverErr pid cs
    (.doneErr :: r.1, r.2)

def stepM (s : MState) : DEvent → MState
  | .arriveShared pol key =>
    match tLookup s.table key with
    | some pid =>
      -- `deduplicationPromises.get` hit: return `previousRequestPromise.then(clone)`.
      -- If that promise is still pending the caller waits; if it has already
      -- settled (possible under `deduplicate-until-invalidated`) the handler
      -- runs at once: a fulfilled promise yields a fresh deep copy, a
      -- rejected one propagates the rejection.
      match s.proms.getD pid .pendingP with
      | .pendingP => { s with callers := s.callers ++ [.waitingShared pid] }
      | .okP r =>
        { s with
          heap := s.heap ++ [s.heap.getD r.bodyAddr ""],
          callers := s.callers ++ [.doneOk ⟨s.heap.length, r.respId, r.cwpId⟩ true true] }
      | .errP => { s with callers := s.callers ++ [.doneErr] }
    | none =>
      -- miss: start `performRequest()` and register the pending promise.
      { s with
        table := tInsert s.table key s.proms.length,
        proms := s.proms ++ [.pendingP],
        origins := s.origins + 1,
        callers := s.callers ++ [.awaitingOwn s.proms.length pol key] }
  | .arriveNoDedup keys =>
    { s with
      table := keys.foldl tErase s.table,
      proms := s.proms ++ [.pendingP],
      origins := s.origins + 1,
      callers := s.callers ++ [.awaitingNoDedup s.proms.length] }
  | .settleOk pid body respId cwpId =>
    match s.proms.getD pid .errP with
    | .pendingP =>
      let d := deliverOk pid s.heap.length respId cwpId s.callers (s.heap.length + 1)
      { table := d.2.2.foldl tErase s.table,
        proms := s.proms.set pid (.okP ⟨s.heap.length, respId, cwpId⟩),
        heap := s.heap ++ List.replicate (d.2.1 - s.heap.length) body,
        origins := s.origins,
        callers := d.1 }
    | _ => s
  | .settleErr pid =>
    match s.proms.getD pid .errP with
    | .pendingP =>
      let d := deliverErr pid s.callers
      { s with
        table := d.2.foldl tErase s.table,
        proms := s.proms.set pid .errP,
        callers := d.1 }
    | _ => s

def runM (s : MState) (es : List DEvent) : MState := es.foldl stepM s

/-- Observing a parsed body in a machine state. -/
def bodyAt (s : MState) (addr : Nat) : String := s.heap.getD addr ""

/-- A caller mutating the parsed body it received: an in-place update of the
heap cell its result points at. -/
def mutateBody (s : MState) (addr : Nat) (x : String) : MState :=
  { s with heap := s.heap.set addr x }

/-- The results delivered to a block of waiters: fresh body addresses
`a`, `a+1`, ..., all sharing `respId` / `cwpId`. -/
def clonesList : Nat → Nat → Nat → Option Nat → List CallerSt
  | 0, _, _, _ => []
  | n + 1, a, rid, wid => .doneOk ⟨a, rid, wid⟩ true true :: clonesList n (a + 1) rid wid

/-- State after one call arrived first under key `k` (becoming owner of
promise 0) and `j` further calls arrived before settlement (each a waiter). -/
def ownerState (pol : SharePolicy) (k : String) (j : Nat) : MState :=
  ⟨[(k, 0)], [.pendingP], [], 1, .awaitingOwn 0 pol k :: List.replicate j (.waitingShared 0)⟩

/-- State after the owner's operation settled successfully with `n` waiters
attached: the retained result sits at address 0, the owner's copy at address
1, the waiters' copies at 2..n+1, and under
`deduplicate-during-request-lifetime` the table entry is gone while under
`deduplicate-until-invalidated` it remains. -/
def settledState (pol : SharePolicy) (k : String) (n : Nat) (body : String)
    (rid : Nat) (wid : Option Nat) : MState :=
  ⟨if pol = .duringLifetime then [] else [(k, 0)],
   [.okP ⟨0, rid, wid⟩],
   List.replicate (n + 2) body,
   1,
   .doneOk ⟨1, rid, wid⟩ false true :: clonesList n 2 rid wid⟩

/-- State after the owner's operation rejected with `n` waiters attached:
everyone observes the rejection; only `deduplicate-during-request-lifetime`
evicts the table entry. -/
def failState (pol : SharePolicy) (n : Nat) (k : String) : MState :=
  ⟨if pol = .duringLifetime then [] else [(k, 0)], [.errP], [], 1,
   List.replicate (n + 1) .doneErr⟩

/-- The C1/C8/C10 scenario: `n+2` calls with policy
`deduplicate-during-request-lifetime` and the same key arrive while the first
call's operation is in flight, then that operation settles successfully. -/
def overlapRun (n : Nat) (k body : String) (rid : Nat) (wid : Option Nat) : MState :=
  runM initM (List.replicate (n + 2) (.arriveShared .duringLifetime k)
    ++ [.settleOk 0 body rid wid])

/-- The failing-operation scenario: `n+1` calls share an in-flight operation
under a sharing policy and the operation rejects. -/
def failRun (pol : SharePolicy) (n : Nat) (k : String) : MState :=
  runM initM (List.replicate (n + 1) (.arriveShared pol k) ++ [.settleErr 0])

/-- Canonical settled state under `deduplicate-until-invalidated` with `j`
late joiners already served from the retained entry. -/
def untilSettled (k : String) (j : Nat) (body : String) (rid : Nat)
    (wid : Option Nat) : MState :=
  ⟨[(k, 0)], [.okP ⟨0, rid, wid⟩], List.replicate (j + 2) body, 1,
   .doneOk ⟨1, rid, wid⟩ false true :: clonesList j 2 rid wid⟩

/-- The until-invalidated late-joiner scenario: one call settles successfully,
then `m` later calls under the same key are served from the retained entry. -/
def lateJoinRun (m : Nat) (k body : String) (rid : Nat) (wid : Option Nat) : MState :=
  runM initM ([.arriveShared .untilInvalidated k, .settleOk 0 body rid wid]
    ++ List.replicate m (.arriveShared .untilInvalidated k))

/-! ## HTTPCache (`HTTPCache.ts`)

External collaborators are opaque parameters: the origin `fetch` capability is
a response oracle indexed by the number of origin calls already made in the
current `HTTPCache.fetch` call; the `http-cache-semantics` `CachePolicy` is a
`PolicyData` value (its serialized `toObject` form — `JSON` round-tripping is
the identity in the model) driven by a black-box `PolicyEngine` supplying the
methods the source calls (`new CachePolicy`, `age`, `satisfiesWithoutRevalidation`,
`responseHeaders`, `revalidationHeaders`, `revalidatedPolicy`, `storable`,
`timeToLive`); the key-value store is an association list.  `HCState` logs
every origin call, store read and store write so the theorems can count them.
Header names are kept lower-case (node-fetch normalizes them; `Headers.has`
is case-insensitive).  `response.clone()` / re-wrapping a consumed body
produces a response with identical observable content, so it is the identity
on the `FResponse` record.  Every `.set(...)` call site in the source attaches
`.catch(error => console.error(...))` directly to the write promise, so the
modelled write handle always resolves and carries the console log. -/

structure FResponse where
  status : Nat
  headers : List (String × String)
  bodyText : String
  urlR : Option String
deriving DecidableEq, Repr

structure PolicyRequest where
  url : String
  method : String
  headers : List (String × String)
deriving DecidableEq, Repr

structure PolicyResponse where
  status : Nat
  headers : List (String × String)
deriving DecidableEq, Repr

structure PolicyData where
  purl : Option String
  pstatus : Nat
  pdata : String
deriving DecidableEq, Repr

structure PolicyEngine where
  mkPolicy : PolicyRequest → PolicyResponse → PolicyData
  ageOf : PolicyData → Int
  satisfiesWithoutReval : PolicyData → PolicyRequest → Bool
  responseHeadersOf : PolicyData → List (String × String)
  revalidationHeadersOf : PolicyData → PolicyRequest → List (String × String)
  revalidatedPolicy : PolicyData → PolicyRequest → PolicyResponse → PolicyData × Bool
  storableOf : PolicyData → Bool
  timeToLiveMsOf : PolicyData → Nat

structure PolicyCacheEntry where
  policy : PolicyData
  ttlOverride : Option Int
  body : String
deriving DecidableEq, Repr

inductive CacheVal where
  | entryV (e : PolicyCacheEntry)
  | rawV (s : String)
deriving DecidableEq, Repr

structure CacheOptionsV where
  ttl : Option Int
  cacheStrategy : Option String
deriving DecidableEq, Repr

structure HCRequest where
  method : Option String
  headers : List (String × String)
  skipCache : Bool
deriving DecidableEq, Repr

/-- The `cacheOptions` argument of `HTTPCache.fetch`: absent, a plain
`CacheOptions` object, or a function producing one. -/
inductive CacheOptsArg where
  | noOpts
  | staticOpts (o : CacheOptionsV)
  | fnOpts (f : String → FResponse → HCRequest → Option CacheOptionsV)

structure CacheCtx where
  cacheKey : Option String
  cacheOptions : CacheOptsArg

structure HCEnv where
  fetchFn : Nat → FResponse
  engine : PolicyEngine
  setOutcome : Option String

def sLookup : List (String × CacheVal) → String → Option CacheVal
  | [], _ => none
  | (k, v) :: rest, key => if k = key then some v else sLookup rest key

def sInsert (m : List (String × CacheVal)) (key : String) (v : CacheVal) :
    List (String × CacheVal) :=
  m.filter (fun p => !(p.1 == key)) ++ [(key, v)]

structure HCState where
  store : List (String × CacheVal)
  fc : Nat
  origins : List PolicyRequest
  gets : List String
  sets : List (String × CacheVal × Int)
deriving Repr

/-- The cache-write promise as the caller observes it: `resolvesOk` is whether
it fulfills (it always does — each `set` has `.catch(console.error)` attached),
`consoleLog` the console output of that catch handler. -/
structure WriteHandle where
  resolvesOk : Bool
  consoleLog : List String
deriving DecidableEq, Repr

/-- `ResponseWithCacheWritePromise`. -/
structure HCRes where
  response : FResponse
  cacheWritePromise : Option WriteHandle
  parsedBody : Option String
deriving DecidableEq, Repr

def hasHeader (hs : List (String × String)) (name : String) : Bool :=
  hs.any (fun p => p.1 == name)

def policyRequestFrom (url : String) (request : HCRequest) : PolicyRequest :=
  ⟨url, request.method.getD "GET", request.headers⟩

def policyResponseFrom (r : FResponse) : PolicyResponse := ⟨r.status, r.headers⟩

def canBeRevalidated (r : FResponse) : Bool :=
  hasHeader r.headers "etag" || hasHeader r.headers "last-modified"

/-- JavaScript numeric truthiness of an optional number (`undefined` and `0`
are falsy). -/
def jsTruthyNum : Option Int → Bool
  | none => false
  | some t => !(t == 0)

/-- `Math.round(ms / 1000)` for a non-negative millisecond count. -/
def roundedSecondsOfMs (ms : Nat) : Int := ((ms + 500) / 1000 : Nat)

def doFetch (env : HCEnv) (st : HCState) (req : PolicyRequest) : FResponse × HCState :=
  (env.fetchFn st.fc, { st with fc := st.fc + 1, origins := st.origins ++ [req] })

def storeGet (st : HCState) (key : String) : Option CacheVal × HCState :=
  (sLookup st.store key, { st with gets := st.gets ++ [key] })

def storeSet (env : HCEnv) (st : HCState) (key : String) (v : CacheVal) (ttl : Int) :
    WriteHandle × HCState :=
  match env.setOutcome with
  | none =>
    (⟨true, []⟩,
     { st with store := sInsert st.store key v, sets := st.sets ++ [(key, v, ttl)] })
  | some e =>
    (⟨true, [e]⟩, { st with sets := st.sets ++ [(key, v, ttl)] })

/-- Resolution of the `cacheOptions` argument at its point of use
(`typeof cacheOptions === 'function'` check in `storeResponseAndReturnClone`). -/
def resolveCacheOpts (cacheOptions : CacheOptsArg) (url : String) (response : FResponse)
    (request : HCRequest) : Option CacheOptionsV :=
  match cacheOptions with
  | .fnOpts f => f url response request
  | .staticOpts o => some o
  | .noOpts => none

def optsArgOf : Option CacheOptionsV → CacheOptsArg
  | some o => .staticOpts o
  | none => .noOpts

/-- `HTTPCache.storeResponseAndReturnClone`. -/
def storeResponseAndReturnClone (env : HCEnv) (st : HCState) (url : String)
    (response : FResponse) (request : HCRequest) (policy : PolicyData)
    (cacheKey : String) (cacheOptions : CacheOptsArg) : HCRes × HCState :=
  let co := resolveCacheOpts cacheOptions url response request
  let ttlOverride := co.bind (·.ttl)
  if !(jsTruthyNum ttlOverride && decide (200 ≤ policy.pstatus)
        && decide (policy.pstatus ≤ 299))
      && !((request.method == some "GET") && env.engine.storableOf policy) then
    (⟨response, none, none⟩, st)
  else
    let ttl : Int := ttlOverride.getD (roundedSecondsOfMs (env.engine.timeToLiveMsOf policy))
    if ttl ≤ 0 then (⟨response, none, none⟩, st)
    else
      let entry : PolicyCacheEntry := ⟨policy, ttlOverride, response.bodyText⟩
      let w := storeSet env st cacheKey (.entryV entry)
        (if canBeRevalidated response then 2 * ttl else ttl)
      (⟨response, some w.1, none⟩, w.2)

/-- The freshness reuse condition of `HTTPCache.handlePolicyCache`:
`(ttlOverride && policy.age() < ttlOverride) || (!ttlOverride &&
policy.satisfiesWithoutRevalidation(policyRequestFrom(url, requestOpts)))`,
evaluated on the stored policy with its URL cleared. -/
def reuseCheck (env : HCEnv) (e : PolicyCacheEntry) (url : String)
    (request : HCRequest) : Bool :=
  let policy := { e.policy with purl := none }
  (jsTruthyNum e.ttlOverride && decide (env.engine.ageOf policy < e.ttlOverride.getD 0))
  || (!jsTruthyNum e.ttlOverride
      && env.engine.satisfiesWithoutReval policy (policyRequestFrom url request))

/-- `JSON.parse` of a stored entry.  A `rawV` value under a key read by the
policy path would be a runtime type error in the source (its `policy` field is
`undefined`); the total model maps it to an entry carrying the raw string as
body, a branch no theorem exercises. -/
def parseEntry : CacheVal → PolicyCacheEntry
  | .entryV e => e
  | .rawV s => ⟨⟨none, 0, ""⟩, none, s⟩

/-- The cached value as returned by the object-strategy path. -/
def rawOfCacheVal : CacheVal → String
  | .rawV s => s
  | .entryV e => e.body

/-- `new NodeFetchResponse(undefined, { status: 200 })`. -/
def emptyOkResponse : FResponse := ⟨200, [], "", none⟩

/-- `HTTPCache.handleDirectCache` (the object-strategy path). -/
def handleDirectCache (env : HCEnv) (st : HCState) (url : String) (request : HCRequest)
    (cacheKey : String) (cacheOptions : Option CacheOptionsV) : HCRes × HCState :=
  if request.skipCache then
    let r := doFetch env st (policyRequestFrom url request)
    (⟨r.1, none, some r.1.bodyText⟩, r.2)
  else
    let g := storeGet st cacheKey
    match g.1 with
    | some v => (⟨emptyOkResponse, none, some (rawOfCacheVal v)⟩, g.2)
    | none =>
      let r := doFetch env g.2 (policyRequestFrom url request)
      if jsTruthyNum (cacheOptions.bind (·.ttl)) then
        let w := storeSet env r.2 cacheKey (.rawV r.1.bodyText)
          ((cacheOptions.bind (·.ttl)).getD 0)
        (⟨r.1, some w.1, some r.1.bodyText⟩, w.2)
      else (⟨r.1, none, some r.1.bodyText⟩, r.2)

/-- `HTTPCache.handlePolicyCache`. -/
def handlePolicyCache (env : HCEnv) (st : HCState) (url : String) (request : HCRequest)
    (cacheKey : String) (cacheOptions : Option CacheOptionsV) : HCRes × HCState :=
  let g : Option CacheVal × HCState :=
    if !request.skipCache then storeGet st cacheKey else (none, st)
  match g.1 with
  | none =>
    let r := doFetch env g.2 (policyRequestFrom url request)
    let policy := env.engine.mkPolicy (policyRequestFrom url request)
      (policyResponseFrom r.1)
    storeResponseAndReturnClone env r.2 url r.1 request policy cacheKey
      (optsArgOf cacheOptions)
  | some v =>
    let e := parseEntry v
    let urlFromPolicy := e.policy.purl
    let policy := { e.policy with purl := none }
    if reuseCheck env e url request then
      (⟨⟨policy.pstatus, env.engine.responseHeadersOf policy, e.body, urlFromPolicy⟩,
        none, none⟩, g.2)
    else
      let revalReq : HCRequest :=
        { request with
            headers := env.engine.revalidationHeadersOf policy (policyRequestFrom url request) }
      let r := doFetch env g.2 (policyRequestFrom url revalReq)
      let rp := env.engine.revalidatedPolicy policy (policyRequestFrom url revalReq)
        (policyResponseFrom r.1)
      let newResp : FResponse :=
        ⟨rp.1.pstatus, env.engine.responseHeadersOf rp.1,
         if rp.2 then r.1.bodyText else e.body, rp.1.purl⟩
      storeResponseAndReturnClone env r.2 url newResp request rp.1 cacheKey
        (optsArgOf cacheOptions)

/-- `HTTPCache.fetch`. -/
def httpCacheFetch (env : HCEnv) (store : List (String × CacheVal)) (url : String)
    (requestOpts : HCRequest) (cache : CacheCtx) : HCRes × HCState :=
  let st0 : HCState := ⟨store, 0, [], [], []⟩
  let request := { requestOpts with method := some (requestOpts.method.getD "GET") }
  let cacheKey := cache.cacheKey.getD url
  if request.method = some "HEAD" then
    let r := doFetch env st0 (policyRequestFrom url request)
    (⟨r.1, none, none⟩, r.2)
  else
    match cache.cacheOptions with
    | .fnOpts f =>
      let r := doFetch env st0 (policyRequestFrom url request)
      let co := f url r.1 request
      if (co.bind (·.cacheStrategy)) = some "object" then
        if jsTruthyNum (co.bind (·.ttl)) then
          let w := storeSet env r.2 cacheKey (.rawV r.1.bodyText) ((co.bind (·.ttl)).getD 0)
          (⟨r.1, some w.1, some r.1.bodyText⟩, w.2)
        else (⟨r.1, none, some r.1.bodyText⟩, r.2)
      else
        let policy := env.engine.mkPolicy (policyRequestFrom url request)
          (policyResponseFrom r.1)
        storeResponseAndReturnClone env r.2 url r.1 request policy cacheKey (optsArgOf co)
    | .staticOpts o =>
      if o.cacheStrategy.getD "default" = "object" then
        handleDirectCache env st0 url request cacheKey (some o)
      else
        handlePolicyCache env st0 url request cacheKey (some o)
    | .noOpts =>
      handlePolicyCache env st0 url request cacheKey none

/-! ## The slice of `RESTDataSource.fetch` around one `httpCache.fetch` call

`performRequest` awaits `httpCache.fetch` (an origin-fetch error propagates
through `HTTPCache` uncaught and surfaces here as the awaited call throwing),
hands a present `cacheWritePromise` to `catchCacheWritePromiseErrors`, parses
the body, throws `errorFromResponse` for a non-2xx response, and on any thrown
error invokes `didEncounterError` and rethrows. -/

inductive PRStatus where
  | okRes (parsedBody : String)
  | errRes
deriving DecidableEq, Repr

structure PROut where
  result : PRStatus
  hookCalls : Nat
  loggerLog : List String
deriving DecidableEq, Repr

/-- `RESTDataSource.catchCacheWritePromiseErrors` (default): attach
`cacheWritePromise.catch(e => this.logger.error(...))`; the handler fires only
if the promise it is given rejects. -/
def catchCacheWritePromiseErrors (h : WriteHandle) : List String :=
  if h.resolvesOk then [] else ["Error writing from RESTDataSource to cache"]

def performRequest (hc : Except String HCRes) : PROut :=
  match hc with
  | .error _ => ⟨.errRes, 1, []⟩
  | .ok res =>
    let loggerLog := (res.cacheWritePromise.map catchCacheWritePromiseErrors).getD []
    if 200 ≤ res.response.status ∧ res.response.status ≤ 299 then
      ⟨.okRes res.response.bodyText, 0, loggerLog⟩
    else ⟨.errRes, 1, loggerLog⟩

/-! ## Spec-side definitions and concrete scenario instances -/

/-- Modelled from the spec (claim C5): a store write happens exactly when
either a `ttlOverride` is set and the status is 2xx, or the method is GET and
the policy engine reports the response storable, and additionally the
effective TTL is strictly positive. -/
def specStoreEligible (ttlOverride : Option Int) (status : Nat) (method : Option String)
    (storable : Bool) (effTtl : Int) : Bool :=
  ((ttlOverride.isSome && decide (200 ≤ status) && decide (status ≤ 299))
    || ((method == some "GET") && storable))
  && decide (0 < effTtl)

/-- A black-box policy engine instance for the concrete scenarios: stored
entries report age 10 seconds, header-based freshness always fails, responses
are always storable, reconciliation reports "not modified". -/
def cEngine : PolicyEngine :=
  ⟨fun _ r => ⟨none, r.status, "mk"⟩,
   fun _ => 10,
   fun _ _ => false,
   fun _ => [],
   fun _ _ => [],
   fun p _ _ => (p, false),
   fun _ => true,
   fun _ => 0⟩

/-- Origin always answers 200 with body "fresh"; the key-value store works. -/
def cEnv : HCEnv := ⟨fun _ => ⟨200, [], "fresh", none⟩, cEngine, none⟩

/-- Same environment but the key-value store write rejects with "boom". -/
def cEnvSetFails : HCEnv := ⟨fun _ => ⟨200, [], "fresh", none⟩, cEngine, some "boom"⟩

/-- A stored entry written with `ttlOverride = 30` (so with `age 10` it is
fresh under the override). -/
def cEntryTtl : PolicyCacheEntry := ⟨⟨some "u", 200, "pd"⟩, some 30, "cached"⟩

/-- A stored entry without a `ttlOverride` (so, with an engine whose freshness
check fails, a lookup takes the revalidation path). -/
def cEntryNoTtl : PolicyCacheEntry := ⟨⟨some "u", 200, "pd"⟩, none, "stored"⟩

def cReqGET : HCRequest := ⟨some "GET", [], false⟩

/-- `ttlOverride` as computed at the head of `storeResponseAndReturnClone`. -/
def ttlOfArg (cacheOptions : CacheOptsArg) (url : String) (response : FResponse)
    (request : HCRequest) : Option Int :=
  (resolveCacheOpts cacheOptions url response request).bind (·.ttl)

/-- `const ttl = ttlOverride ?? Math.round(policy.timeToLive() / 1000)`. -/
def effectiveTtl (env : HCEnv) (policy : PolicyData) (ttlO : Option Int) : Int :=
  ttlO.getD (roundedSecondsOfMs (env.engine.timeToLiveMsOf policy))

def c9Out : HCRes × HCState :=
  httpCacheFetch cEnvSetFails [] "u" cReqGET ⟨some "K", .staticOpts ⟨some 60, none⟩⟩

theorem getD_set_ne {α : Type} (l : List α) (i j : Nat) (x d : α) (h : i ≠ j) :
    (l.set i x).getD j d = l.getD j d := by
  induction l generalizing i j with
  | nil => simp [List.set]
  | cons a t ih =>
    cases i with
    | zero =>
      cases j with
      | zero => exact absurd rfl h
      | succ j => simp [List.set, List.getD]
    | succ i =>
      cases j with
      | zero => simp [List.set, List.getD]
      | succ j =>
        simp only [List.set, List.getD_cons_succ]
        exact ih i j (fun hij => h (by simp [hij]))

/-! ### Closed forms for the scenarios the claims quantify over -/

theorem getD_replicate {α : Type} (x d : α) :
    ∀ n i, i < n → (List.replicate n x).getD i d = x := by
  intro n
  induction n with
  | zero => intro i h; omega
  | succ n ih =>
    intro i h
    cases i with
    | zero => simp [List.replicate_succ, List.getD]
    | succ i =>
      simp only [List.replicate_succ, List.getD_cons_succ]
      exact ih i (by omega)

theorem clonesList_get? (rid : Nat) (wid : Option Nat) :
    ∀ n a i, i < n →
      (clonesList n a rid wid).get? i = some (.doneOk ⟨a + i, rid, wid⟩ true true) := by
  intro n
  induction n with
  | zero => intro a i h; omega
  | succ n ih =>
    intro a i h
    cases i with
    | zero => simp [clonesList]
    | succ i =>
      have hi : a + 1 + i = a + (i + 1) := by omega
      simpa [clonesList, hi] using ih (a + 1) i (by omega)

theorem clonesList_snoc (rid : Nat) (wid : Option Nat) :
    ∀ n a, clonesList n a rid wid ++ [.doneOk ⟨a + n, rid, wid⟩ true true]
      = clonesList (n + 1) a rid wid := by
  intro n
  induction n with
  | zero => intro a; simp [clonesList]
  | succ n ih =>
    intro a
    have hi : a + (n + 1) = (a + 1) + n := by omega
    simp only [clonesList, List.cons_append, hi, ih (a + 1)]

theorem stepM_init_arrive (pol : SharePolicy) (k : String) :
    stepM initM (.arriveShared pol k) = ownerState pol k 0 := rfl

theorem stepM_ownerState_arrive (pol pol2 : SharePolicy) (k : String) (j : Nat) :
    stepM (ownerState pol k j) (.arriveShared pol2 k) = ownerState pol k (j + 1) := by
  simp [stepM, ownerState, tLookup, List.getD, List.replicate_succ']

theorem runM_ownerState_arrivals (pol : SharePolicy) (k : String) :
    ∀ m j, runM (ownerState pol k j) (List.replicate m (.arriveShared pol k))
      = ownerState pol k (j + m) := by
  intro m
  induction m with
  | zero => intro j; simp [runM]
  | succ m ih =>
    intro j
    have hj : j + 1 + m = j + (m + 1) := by omega
    simp only [List.replicate_succ, runM, List.foldl_cons]
    have h1 := stepM_ownerState_arrive pol pol k j
    rw [h1]
    simpa [runM, hj] using ih (j + 1)

theorem runM_init_arrivals (pol : SharePolicy) (k : String) (n : Nat) :
    runM initM (List.replicate (n + 1) (.arriveShared pol k)) = ownerState pol k n := by
  simp only [List.replicate_succ, runM, List.foldl_cons]
  rw [show stepM initM (.arriveShared pol k) = ownerState pol k 0 from rfl]
  simpa using runM_ownerState_arrivals pol k n 0

theorem deliverOk_replicate (pid retained rid : Nat) (wid : Option Nat) :
    ∀ n a, deliverOk pid retained rid wid (List.replicate n (.waitingShared pid)) a
      = (clonesList n a rid wid, a + n, ([] : List String)) := by
  intro n
  induction n with
  | zero => intro a; simp [deliverOk, clonesList]
  | succ n ih =>
    intro a
    have hi : a + 1 + n = a + (n + 1) := by omega
    simp [List.replicate_succ, deliverOk, clonesList, ih (a + 1), hi]

theorem deliverErr_replicate (pid : Nat) :
    ∀ n, deliverErr pid (List.replicate n (.waitingShared pid))
      = (List.replicate n .doneErr, ([] : List String)) := by
  intro n
  induction n with
  | zero => simp [deliverErr]
  | succ n ih => simp [List.replicate_succ, deliverErr, ih]

theorem stepM_ownerState_settleOk (pol : SharePolicy) (k : String) (n : Nat)
    (body : String) (rid : Nat) (wid : Option Nat) :
    stepM (ownerState pol k n) (.settleOk 0 body rid wid)
      = settledState pol k n body rid wid := by
  cases pol <;>
    simp [stepM, ownerState, settledState, List.getD, deliverOk,
      deliverOk_replicate, tErase, Nat.add_comm]

theorem stepM_ownerState_settleErr (pol : SharePolicy) (k : String) (n : Nat) :
    stepM (ownerState pol k n) (.settleErr 0) = failState pol n k := by
  cases pol <;>
    simp [stepM, ownerState, failState, List.getD, deliverErr,
      deliverErr_replicate, tErase, List.replicate_succ]

theorem overlapRun_eq (n : Nat) (k body : String) (rid : Nat) (wid : Option Nat) :
    overlapRun n k body rid wid = settledState .duringLifetime k (n + 1) body rid wid := by
  unfold overlapRun runM
  rw [List.foldl_append]
  rw [show List.foldl stepM initM (List.replicate (n + 2) (.arriveShared .duringLifetime k))
      = ownerState .duringLifetime k (n + 1) from runM_init_arrivals _ _ _]
  simpa using stepM_ownerState_settleOk .duringLifetime k (n + 1) body rid wid

theorem failRun_eq (pol : SharePolicy) (n : Nat) (k : String) :
    failRun pol n k = failState pol n k := by
  unfold failRun runM
  rw [List.foldl_append]
  rw [show List.foldl stepM initM (List.replicate (n + 1) (.arriveShared pol k))
      = ownerState pol k n from runM_init_arrivals _ _ _]
  simpa using stepM_ownerState_settleErr pol k n

theorem stepM_untilSettled_arrive (k : String) (j : Nat) (body : String)
    (rid : Nat) (wid : Option Nat) :
    stepM (untilSettled k j body rid wid) (.arriveShared .untilInvalidated k)
      = untilSettled k (j + 1) body rid wid := by
  have hget : (List.replicate (j + 2) body).getD 0 "" = body :=
    getD_replicate body "" (j + 2) 0 (by omega)
  have hsnoc := clonesList_snoc rid wid j 2
  rw [show (2 + j) = j + 2 from by omega] at hsnoc
  have hrep : List.replicate (j + 2) body ++ [body] = List.replicate (j + 1 + 2) body := by
    rw [← List.replicate_succ']
  simp [stepM, untilSettled, tLookup, hget, hsnoc, hrep]

theorem lateJoinRun_eq (m : Nat) (k body : String) (rid : Nat) (wid : Option Nat) :
    lateJoinRun m k body rid wid = untilSettled k m body rid wid := by
  have h0 : runM initM [.arriveShared .untilInvalidated k, .settleOk 0 body rid wid]
      = untilSettled k 0 body rid wid := by
    show stepM (stepM initM (.arriveShared .untilInvalidated k)) (.settleOk 0 body rid wid)
      = untilSettled k 0 body rid wid
    rw [stepM_init_arrive]
    simpa [settledState, untilSettled, clonesList]
      using stepM_ownerState_settleOk .untilInvalidated k 0 body rid wid
  have hrec : ∀ mm jj, runM (untilSettled k jj body rid wid)
      (List.replicate mm (.arriveShared .untilInvalidated k))
        = untilSettled k (jj + mm) body rid wid := by
    intro mm
    induction mm with
    | zero => intro jj; simp [runM]
    | succ mm ih =>
      intro jj
      have hj : jj + 1 + mm = jj + (mm + 1) := by omega
      simp only [List.replicate_succ, runM, List.foldl_cons]
      rw [stepM_untilSettled_arrive]
      simpa [runM, hj] using ih (jj + 1)
  unfold lateJoinRun runM
  rw [List.foldl_append]
  have := hrec m 0
  simp only [runM] at h0 this
  rw [h0, this]
  simp

/-! ## Claim theorems for the deduplication layer -/

/-- C1: when `n+2` calls computing policy `deduplicate-during-request-lifetime`
with the same deduplication key overlap in time (every later call arrives
before the first call's promise settles and its entry is removed), exactly one
underlying origin-fetching operation is started and every caller receives that
one operation's result (same `response` and cache-write identities, same body
value; the first caller is tagged not-deduplicated, every later one
deduplicated); afterwards the table entry is gone.  Two non-overlapping calls
under the same key each start their own operation (`origins = 2`). -/
theorem dedup_duringLifetime_overlap_shares_one_origin :
    ∀ (n : Nat) (k body : String) (rid : Nat) (wid : Option Nat),
      (overlapRun n k body rid wid).origins = 1
      ∧ (overlapRun n k body rid wid).table = []
      ∧ (∀ i, i < n + 2 →
          (overlapRun n k body rid wid).callers.get? i
            = some (.doneOk ⟨i + 1, rid, wid⟩ (if i = 0 then false else true) true)
          ∧ bodyAt (overlapRun n k body rid wid) (i + 1) = body)
      ∧ (∀ (k2 body2 : String) (rid2 : Nat) (wid2 : Option Nat),
          (runM initM [.arriveShared .duringLifetime k2, .settleOk 0 body2 rid2 wid2,
            .arriveShared .duringLifetime k2]).origins = 2) := by
  intro n k body rid wid
  refine ⟨?_, ?_, ?_, ?_⟩
  · rw [overlapRun_eq]; rfl
  · rw [overlapRun_eq]; rfl
  · intro i hi
    rw [overlapRun_eq]
    constructor
    · cases i with
      | zero => rfl
      | succ i =>
        have h2 : 2 + i = i + 1 + 1 := by omega
        simpa [settledState, h2] using clonesList_get? rid wid (n + 1) 2 i (by omega)
    · simpa [bodyAt, settledState] using
        getD_replicate body "" (n + 1 + 2) (i + 1) (by omega)
  · intro k2 body2 rid2 wid2
    show (stepM (stepM (stepM initM (.arriveShared .duringLifetime k2))
      (.settleOk 0 body2 rid2 wid2)) (.arriveShared .duringLifetime k2)).origins = 2
    rw [stepM_init_arrive, stepM_ownerState_settleOk]
    simp [stepM, settledState, tLookup]

/-- Witness for C1 at `n = 0` (two overlapping callers): the first caller's
result. -/
theorem dedup_duringLifetime_overlap_shares_one_origin_witness :
    (0 : Nat) < 0 + 2
    ∧ ((overlapRun 0 "k" "b" 7 none).callers.get? 0
        = some (.doneOk ⟨0 + 1, 7, none⟩ (if 0 = 0 then false else true) true)
      ∧ bodyAt (overlapRun 0 "k" "b" 7 none) (0 + 1) = "b") :=
  ⟨by omega,
    (dedup_duringLifetime_overlap_shares_one_origin 0 "k" "b" 7 none).2.2.1 0 (by omega)⟩

/-- C2 counterexample: one call with policy `deduplicate-until-invalidated`
under key "k" whose operation rejects.  The claim says the entry is removed on
failure so that a subsequent call starts a fresh operation; in fact the entry
is still in the table, and a subsequent call under "k" is answered from the
rejected promise without starting any fresh operation (`origins` stays 1). -/
theorem dedup_untilInvalidated_failure_keeps_entry :
    ¬ tLookup (failRun .untilInvalidated 0 "k").table "k" = none
    ∧ (runM (failRun .untilInvalidated 0 "k")
        [.arriveShared .untilInvalidated "k"]).origins = 1
    ∧ (runM (failRun .untilInvalidated 0 "k")
        [.arriveShared .untilInvalidated "k"]).callers = [.doneErr, .doneErr] := by
  refine ⟨?_, ?_, ?_⟩ <;>
    simp [failRun_eq, failState, runM, stepM, tLookup, List.getD, List.replicate]

/-- C2 (amended): when the owning operation under a sharing policy rejects,
every current waiter receives the same rejection; for
`deduplicate-during-request-lifetime` the entry is removed on completion
regardless of success or failure, so a subsequent call starts a fresh
operation; for `deduplicate-until-invalidated` the entry is left in the table
both on success and on failure, so a subsequent call under that key receives
the retained (here: rejected) result without a fresh operation. -/
theorem dedup_failure_propagation_and_eviction :
    ∀ (pol : SharePolicy) (n : Nat) (k : String),
      (failRun pol n k).callers = List.replicate (n + 1) .doneErr
      ∧ (failRun pol n k).origins = 1
      ∧ (failRun pol n k).table = (if pol = .duringLifetime then [] else [(k, 0)])
      ∧ (runM (failRun pol n k) [.arriveShared pol k]).callers
          = List.replicate (n + 1) .doneErr
            ++ [if pol = .duringLifetime then .awaitingOwn 1 pol k else .doneErr]
      ∧ (runM (failRun pol n k) [.arriveShared pol k]).origins
          = (if pol = .duringLifetime then 2 else 1) := by
  intro pol n k
  cases pol <;> simp [failRun_eq, failState, runM, stepM, tLookup, List.getD]

/-- C7 counterexample: for a `GET` request with explicit `cacheKey` "k", the
default deduplication key is the cache key itself ("k"), not
`method + " " + cacheKey` ("GET k") as the claim states. -/
theorem default_dedup_key_is_not_method_prefixed :
    DedupPolicy.deduplicationKeyOf
        (requestDeduplicationPolicyFor "https://api.example.com/foo"
          ⟨some "GET", some "k"⟩)
      ≠ some ("GET" ++ " "
          ++ cacheKeyFor "https://api.example.com/foo" ⟨some "GET", some "k"⟩) := by
  decide

/-- C7 (amended): the default `cacheKeyFor` returns the explicit `cacheKey`
override if provided and otherwise `method + " " + URL`; the default
`requestDeduplicationPolicyFor` returns, for GET and HEAD requests,
`deduplicate-during-request-lifetime` with deduplication key equal to the
cache key itself (whose default form already begins with the method), and for
every other method `do-not-deduplicate` whose `invalidateDeduplicationKeys`
are exactly the deduplication keys the corresponding GET and HEAD requests
would use; both functions are pure functions of `(url, request)`. -/
theorem default_key_and_policy_characterization :
    ∀ (url : String) (request : KeyRequest),
      cacheKeyFor url request = specCacheKey url request
      ∧ requestDeduplicationPolicyFor url request = specDedupPolicy url request
      ∧ ((request.method.getD "GET" = "GET" ∨ request.method.getD "GET" = "HEAD") →
          requestDeduplicationPolicyFor url request
            = .dedupDuringRequestLifetime (cacheKeyFor url request))
      ∧ (¬ (request.method.getD "GET" = "GET" ∨ request.method.getD "GET" = "HEAD") →
          requestDeduplicationPolicyFor url request
            = .doNotDedup
                [(requestDeduplicationPolicyFor url
                    { request with method := some "GET" }).deduplicationKeyOf.getD "",
                 (requestDeduplicationPolicyFor url
                    { request with method := some "HEAD" }).deduplicationKeyOf.getD ""]) := by
  intro url request
  have hck : ∀ r : KeyRequest, cacheKeyFor url r = specCacheKey url r := by
    intro r; cases h : r.cacheKey <;> simp [cacheKeyFor, specCacheKey, h]
  refine ⟨hck request, ?_, ?_, ?_⟩
  · by_cases hm : request.method.getD "GET" = "GET" ∨ request.method.getD "GET" = "HEAD" <;>
      simp [requestDeduplicationPolicyFor, specDedupPolicy, hm, hck]
  · intro hm
    simp [requestDeduplicationPolicyFor, hm]
  · intro hm
    rw [requestDeduplicationPolicyFor]
    simp only [if_neg hm]
    have hg : (requestDeduplicationPolicyFor url { request with method := some "GET" })
        = .dedupDuringRequestLifetime (cacheKeyFor url { request with method := some "GET" }) := by
      simp [requestDeduplicationPolicyFor]
    have hh : (requestDeduplicationPolicyFor url { request with method := some "HEAD" })
        = .dedupDuringRequestLifetime (cacheKeyFor url { request with method := some "HEAD" }) := by
      simp [requestDeduplicationPolicyFor]
    rw [hg, hh]
    rfl

/-- Witness for C7 (amended) at a POST request. -/
theorem default_key_and_policy_characterization_witness :
    ¬ ((KeyRequest.mk (some "POST") none).method.getD "GET" = "GET"
        ∨ (KeyRequest.mk (some "POST") none).method.getD "GET" = "HEAD")
    ∧ requestDeduplicationPolicyFor "https://api.example.com/foo"
        ⟨some "POST", none⟩
        = .doNotDedup
            [(requestDeduplicationPolicyFor "https://api.example.com/foo"
                { KeyRequest.mk (some "POST") none with
                    method := some "GET" }).deduplicationKeyOf.getD "",
             (requestDeduplicationPolicyFor "https://api.example.com/foo"
                { KeyRequest.mk (some "POST") none with
                    method := some "HEAD" }).deduplicationKeyOf.getD ""] :=
  ⟨by decide,
    (default_key_and_policy_characterization "https://api.example.com/foo"
      ⟨some "POST", none⟩).2.2.2 (by decide)⟩

/-- C8: any two distinct callers served from the same shared in-flight entry
hold results whose parsed bodies live at distinct heap addresses (deep copies),
so mutating one caller's body leaves the other caller's body unchanged.  This
holds both for a concurrent `deduplicate-during-request-lifetime` batch and for
late joiners served from a retained `deduplicate-until-invalidated` entry. -/
theorem shared_result_bodies_are_independent_copies :
    (∀ (n : Nat) (k body : String) (rid : Nat) (wid : Option Nat) (i j : Nat) (x : String),
      i < n + 2 → j < n + 2 → i ≠ j →
        (overlapRun n k body rid wid).callers.get? i
          = some (.doneOk ⟨i + 1, rid, wid⟩ (if i = 0 then false else true) true)
        ∧ i + 1 ≠ j + 1
        ∧ bodyAt (overlapRun n k body rid wid) (j + 1) = body
        ∧ bodyAt (mutateBody (overlapRun n k body rid wid) (i + 1) x) (j + 1) = body)
    ∧ (∀ (m : Nat) (k body : String) (rid : Nat) (wid : Option Nat) (i j : Nat) (x : String),
      i < m + 1 → j < m + 1 → i ≠ j →
        (lateJoinRun m k body rid wid).callers.get? i
          = some (.doneOk ⟨i + 1, rid, wid⟩ (if i = 0 then false else true) true)
        ∧ bodyAt (lateJoinRun m k body rid wid) (j + 1) = body
        ∧ bodyAt (mutateBody (lateJoinRun m k body rid wid) (i + 1) x) (j + 1) = body) := by
  constructor
  · intro n k body rid wid i j x hi hj hij
    rw [overlapRun_eq]
    refine ⟨?_, by omega, ?_, ?_⟩
    · cases i with
      | zero => rfl
      | succ i =>
        have h2 : 2 + i = i + 1 + 1 := by omega
        simpa [settledState, h2] using clonesList_get? rid wid (n + 1) 2 i (by omega)
    · simpa [bodyAt, settledState] using
        getD_replicate body "" (n + 1 + 2) (j + 1) (by omega)
    · show ((List.replicate (n + 1 + 2) body).set (i + 1) x).getD (j + 1) "" = body
      rw [getD_set_ne _ (i + 1) (j + 1) x "" (by omega)]
      exact getD_replicate body "" (n + 1 + 2) (j + 1) (by omega)
  · intro m k body rid wid i j x hi hj hij
    rw [lateJoinRun_eq]
    refine ⟨?_, ?_, ?_⟩
    · cases i with
      | zero => rfl
      | succ i =>
        have h2 : 2 + i = i + 1 + 1 := by omega
        simpa [untilSettled, h2] using clonesList_get? rid wid m 2 i (by omega)
    · simpa [bodyAt, untilSettled] using
        getD_replicate body "" (m + 2) (j + 1) (by omega)
    · show ((List.replicate (m + 2) body).set (i + 1) x).getD (j + 1) "" = body
      rw [getD_set_ne _ (i + 1) (j + 1) x "" (by omega)]
      exact getD_replicate body "" (m + 2) (j + 1) (by omega)

/-- Witness for C8 at two overlapping callers. -/
theorem shared_result_bodies_are_independent_copies_witness :
    (0 : Nat) < 0 + 2 ∧ (1 : Nat) < 0 + 2 ∧ (0 : Nat) ≠ 1
    ∧ ((overlapRun 0 "k" "b" 7 none).callers.get? 0
        = some (.doneOk ⟨0 + 1, 7, none⟩ (if 0 = 0 then false else true) true)
      ∧ 0 + 1 ≠ 1 + 1
      ∧ bodyAt (overlapRun 0 "k" "b" 7 none) (1 + 1) = "b"
      ∧ bodyAt (mutateBody (overlapRun 0 "k" "b" 7 none) (0 + 1) "mutated") (1 + 1) = "b") :=
  ⟨by omega, by omega, by omega,
    shared_result_bodies_are_independent_copies.1 0 "k" "b" 7 none 0 1 "mutated"
      (by omega) (by omega) (by omega)⟩

/-- C10: in a sharing fan-out only `parsedBody` is cloned per recipient: each
recipient's `response` identity and cache-write-promise identity are exactly
those of the result retained in the deduplication table (the very same
objects), while its body address differs from the retained result's body
address (a deep copy holding an equal value) — including for the initiating
caller (`i = 0`). -/
theorem shared_fanout_clones_only_parsedBody :
    ∀ (n : Nat) (k body : String) (rid : Nat) (wid : Option Nat) (i : Nat),
      i < n + 2 →
        (overlapRun n k body rid wid).proms.get? 0 = some (.okP ⟨0, rid, wid⟩)
        ∧ (overlapRun n k body rid wid).callers.get? i
            = some (.doneOk ⟨i + 1, rid, wid⟩ (if i = 0 then false else true) true)
        ∧ i + 1 ≠ 0
        ∧ bodyAt (overlapRun n k body rid wid) (i + 1)
            = bodyAt (overlapRun n k body rid wid) 0 := by
  intro n k body rid wid i hi
  rw [overlapRun_eq]
  refine ⟨rfl, ?_, by omega, ?_⟩
  · cases i with
    | zero => rfl
    | succ i =>
      have h2 : 2 + i = i + 1 + 1 := by omega
      simpa [settledState, h2] using clonesList_get? rid wid (n + 1) 2 i (by omega)
  · show (List.replicate (n + 1 + 2) body).getD (i + 1) ""
        = (List.replicate (n + 1 + 2) body).getD 0 ""
    rw [getD_replicate body "" (n + 1 + 2) (i + 1) (by omega),
      getD_replicate body "" (n + 1 + 2) 0 (by omega)]

/-- Witness for C10 at the initiating caller of a two-caller batch. -/
theorem shared_fanout_clones_only_parsedBody_witness :
    (0 : Nat) < 0 + 2
    ∧ ((overlapRun 0 "k" "b" 7 none).proms.get? 0 = some (.okP ⟨0, 7, none⟩)
      ∧ (overlapRun 0 "k" "b" 7 none).callers.get? 0
          = some (.doneOk ⟨0 + 1, 7, none⟩ (if 0 = 0 then false else true) true)
      ∧ 0 + 1 ≠ 0
      ∧ bodyAt (overlapRun 0 "k" "b" 7 none) (0 + 1)
          = bodyAt (overlapRun 0 "k" "b" 7 none) 0) :=
  ⟨by omega, shared_fanout_clones_only_parsedBody 0 "k" "b" 7 none 0 (by omega)⟩

/-! ## Frame lemmas for the HTTPCache model -/

theorem storeSet_sets (env : HCEnv) (st : HCState) (k : String) (v : CacheVal)
    (ttl : Int) : (storeSet env st k v ttl).2.sets = st.sets ++ [(k, v, ttl)] := by
  unfold storeSet
  cases env.setOutcome <;> rfl

theorem storeResponse_frame (env : HCEnv) (st : HCState) (url : String)
    (resp : FResponse) (req : HCRequest) (p : PolicyData) (k : String)
    (o : CacheOptsArg) :
    (storeResponseAndReturnClone env st url resp req p k o).1.response = resp
    ∧ (storeResponseAndReturnClone env st url resp req p k o).2.origins = st.origins
    ∧ (storeResponseAndReturnClone env st url resp req p k o).2.gets = st.gets := by
  unfold storeResponseAndReturnClone
  dsimp only
  split
  · exact ⟨rfl, rfl, rfl⟩
  · split
    · exact ⟨rfl, rfl, rfl⟩
    · unfold storeSet
      cases env.setOutcome <;> exact ⟨rfl, rfl, rfl⟩

/-- The persistent-store writes of `storeResponseAndReturnClone`, as a single
guarded append: the code's eligibility test, then the positivity test on the
effective TTL, then a write whose TTL is doubled when the response is
revalidatable. -/
theorem storeResponse_sets_eq (env : HCEnv) (st : HCState) (url : String)
    (response : FResponse) (request : HCRequest) (policy : PolicyData)
    (cacheKey : String) (cacheOptions : CacheOptsArg) :
    (storeResponseAndReturnClone env st url response request policy cacheKey
        cacheOptions).2.sets
      = st.sets ++
        (if ((jsTruthyNum (ttlOfArg cacheOptions url response request)
              && decide (200 ≤ policy.pstatus) && decide (policy.pstatus ≤ 299))
            || ((request.method == some "GET") && env.engine.storableOf policy))
            && decide (0 < effectiveTtl env policy (ttlOfArg cacheOptions url response request))
         then [(cacheKey,
                .entryV ⟨policy, ttlOfArg cacheOptions url response request,
                  response.bodyText⟩,
                if canBeRevalidated response
                then 2 * effectiveTtl env policy (ttlOfArg cacheOptions url response request)
                else effectiveTtl env policy (ttlOfArg cacheOptions url response request))]
         else []) := by
  have hT : ttlOfArg cacheOptions url response request
      = (resolveCacheOpts cacheOptions url response request).bind (·.ttl) := rfl
  have hE : effectiveTtl env policy (ttlOfArg cacheOptions url response request)
      = (ttlOfArg cacheOptions url response request).getD
          (roundedSecondsOfMs (env.engine.timeToLiveMsOf policy)) := rfl
  rw [hE, hT]
  unfold storeResponseAndReturnClone
  dsimp only
  by_cases hA : (jsTruthyNum ((resolveCacheOpts cacheOptions url response request).bind (·.ttl))
      && decide (200 ≤ policy.pstatus) && decide (policy.pstatus ≤ 299)) = true
  · rw [if_neg (by simp [hA])]
    by_cases hp : ((resolveCacheOpts cacheOptions url response request).bind (·.ttl)).getD
        (roundedSecondsOfMs (env.engine.timeToLiveMsOf policy)) ≤ 0
    · rw [if_pos hp]
      have hd : decide (0 < ((resolveCacheOpts cacheOptions url response request).bind
          (·.ttl)).getD (roundedSecondsOfMs (env.engine.timeToLiveMsOf policy))) = false := by
        simp
        omega
      simp [hA, hd]
    · rw [if_neg hp]
      have hd : decide (0 < ((resolveCacheOpts cacheOptions url response request).bind
          (·.ttl)).getD (roundedSecondsOfMs (env.engine.timeToLiveMsOf policy))) = true := by
        simp
        omega
      rw [storeSet_sets]
      simp [hA, hd]
  · have hA2 : (jsTruthyNum ((resolveCacheOpts cacheOptions url response request).bind (·.ttl))
        && decide (200 ≤ policy.pstatus) && decide (policy.pstatus ≤ 299)) = false :=
      Bool.not_eq_true _ |>.mp hA
    by_cases hB : ((request.method == some "GET") && env.engine.storableOf policy) = true
    · rw [if_neg (by simp [hB])]
      by_cases hp : ((resolveCacheOpts cacheOptions url response request).bind (·.ttl)).getD
          (roundedSecondsOfMs (env.engine.timeToLiveMsOf policy)) ≤ 0
      · rw [if_pos hp]
        have hd : decide (0 < ((resolveCacheOpts cacheOptions url response request).bind
            (·.ttl)).getD (roundedSecondsOfMs (env.engine.timeToLiveMsOf policy))) = false := by
          simp
          omega
        simp [hd]
      · rw [if_neg hp]
        have hd : decide (0 < ((resolveCacheOpts cacheOptions url response request).bind
            (·.ttl)).getD (roundedSecondsOfMs (env.engine.timeToLiveMsOf policy))) = true := by
          simp
          omega
        rw [storeSet_sets]
        simp [hB, hd]
    · have hB2 : ((request.method == some "GET") && env.engine.storableOf policy) = false :=
        Bool.not_eq_true _ |>.mp hB
      rw [if_pos (by simp [hA2, hB2])]
      simp [hA2, hB2]

theorem storeResponse_sets_le (env : HCEnv) (st : HCState) (url : String)
    (resp : FResponse) (req : HCRequest) (p : PolicyData) (k : String)
    (o : CacheOptsArg) :
    (storeResponseAndReturnClone env st url resp req p k o).2.sets.length
      ≤ st.sets.length + 1 := by
  rw [storeResponse_sets_eq]
  split <;> simp

theorem handlePolicyCache_sets_le (env : HCEnv) (st : HCState) (url : String)
    (req : HCRequest) (cacheKey : String) (co : Option CacheOptionsV) :
    (handlePolicyCache env st url req cacheKey co).2.sets.length
      ≤ st.sets.length + 1 := by
  unfold handlePolicyCache
  by_cases hsk : req.skipCache = true
  · simp only [hsk, Bool.not_true, Bool.false_eq_true, if_false]
    exact storeResponse_sets_le _ _ _ _ _ _ _ _
  · have hsk2 : req.skipCache = false := by revert hsk; cases req.skipCache <;> simp
    simp only [hsk2, Bool.not_false, if_true, storeGet]
    cases hv : sLookup st.store cacheKey with
    | none =>
      simp only [hv]
      exact storeResponse_sets_le _ _ _ _ _ _ _ _
    | some v =>
      simp only [hv]
      split
      · exact Nat.le_succ _
      · exact storeResponse_sets_le _ _ _ _ _ _ _ _

theorem handleDirectCache_sets_le (env : HCEnv) (st : HCState) (url : String)
    (req : HCRequest) (cacheKey : String) (co : Option CacheOptionsV) :
    (handleDirectCache env st url req cacheKey co).2.sets.length
      ≤ st.sets.length + 1 := by
  unfold handleDirectCache
  by_cases hsk : req.skipCache = true
  · simp only [hsk, if_true]
    exact Nat.le_succ _
  · simp only [hsk, if_false, storeGet]
    cases hv : sLookup st.store cacheKey with
    | some v =>
      simp only [hv]
      exact Nat.le_succ _
    | none =>
      simp only [hv]
      by_cases hj : jsTruthyNum (co.bind fun x => x.ttl) = true
      · rw [if_pos hj]
        simp [storeSet_sets, doFetch]
      · rw [if_neg hj]
        show st.sets.length ≤ st.sets.length + 1
        exact Nat.le_succ _

/-- Modelled from the spec (claim C5) meets the code: the spec-side
eligibility condition coincides with the code's nested guards once the
positivity of the effective TTL is taken into account (a `ttl: 0` override is
falsy in the code but also yields a non-positive effective TTL). -/
theorem specStoreEligible_eq_code (ttlO : Option Int) (s : Nat) (m : Option String)
    (stb : Bool) (env : HCEnv) (policy : PolicyData) :
    specStoreEligible ttlO s m stb (effectiveTtl env policy ttlO)
      = (((jsTruthyNum ttlO && decide (200 ≤ s) && decide (s ≤ 299))
          || ((m == some "GET") && stb))
        && decide (0 < effectiveTtl env policy ttlO)) := by
  cases ttlO with
  | none => rfl
  | some t =>
    by_cases h0 : t = 0
    · subst h0
      simp [specStoreEligible, jsTruthyNum, effectiveTtl]
    · have hb : (t == (0 : Int)) = false := by simp [h0]
      simp [specStoreEligible, jsTruthyNum, h0, hb, effectiveTtl]

/-- C5: after an origin fetch, `storeResponseAndReturnClone` performs its
persistent-store write exactly when either (a) a `ttlOverride` is set and the
status is 2xx, or (b) the method is GET and the policy engine reports the
response storable — and additionally the effective TTL (`ttlOverride` if
given, else the policy lifetime rounded to whole seconds) is strictly
positive; the TTL passed to the store is doubled exactly when the response
carries an ETag or Last-Modified header.  Second conjunct: a whole
`HTTPCache.fetch` call writes to the store at most once. -/
theorem store_decision_characterization :
    (∀ (env : HCEnv) (st : HCState) (url : String) (response : FResponse)
        (request : HCRequest) (policy : PolicyData) (cacheKey : String)
        (cacheOptions : CacheOptsArg),
      (storeResponseAndReturnClone env st url response request policy cacheKey
          cacheOptions).2.sets
        = st.sets ++
          (if specStoreEligible (ttlOfArg cacheOptions url response request)
              policy.pstatus request.method (env.engine.storableOf policy)
              (effectiveTtl env policy (ttlOfArg cacheOptions url response request))
           then [(cacheKey,
                  .entryV ⟨policy, ttlOfArg cacheOptions url response request,
                    response.bodyText⟩,
                  if canBeRevalidated response
                  then 2 * effectiveTtl env policy (ttlOfArg cacheOptions url response request)
                  else effectiveTtl env policy (ttlOfArg cacheOptions url response request))]
           else []))
    ∧ (∀ (env : HCEnv) (store : List (String × CacheVal)) (url : String)
        (requestOpts : HCRequest) (cache : CacheCtx),
        (httpCacheFetch env store url requestOpts cache).2.sets.length ≤ 1) := by
  constructor
  · intro env st url response request policy cacheKey cacheOptions
    rw [storeResponse_sets_eq, specStoreEligible_eq_code]
  · intro env store url requestOpts cache
    obtain ⟨ck, copts⟩ := cache
    unfold httpCacheFetch
    dsimp only
    split
    · simp [doFetch]
    · cases copts with
      | fnOpts f =>
        dsimp only
        split
        · split
          · simp [storeSet_sets, doFetch]
          · simp [doFetch]
        · exact storeResponse_sets_le _ _ _ _ _ _ _ _
      | staticOpts o =>
        dsimp only
        split
        · exact handleDirectCache_sets_le _ _ _ _ _ _
        · exact handlePolicyCache_sets_le _ _ _ _ _ _
      | noOpts =>
        exact handlePolicyCache_sets_le _ _ _ _ _ _

theorem handlePolicyCache_reval (env : HCEnv) (st : HCState) (url : String)
    (req : HCRequest) (cacheKey : String) (co : Option CacheOptionsV)
    (e : PolicyCacheEntry)
    (hsk : req.skipCache = false)
    (hentry : sLookup st.store cacheKey = some (.entryV e))
    (hre : reuseCheck env e url req = false) :
    (handlePolicyCache env st url req cacheKey co).2.origins
      = st.origins ++ [⟨url, req.method.getD "GET",
          env.engine.revalidationHeadersOf { e.policy with purl := none }
            (policyRequestFrom url req)⟩]
    ∧ (handlePolicyCache env st url req cacheKey co).1.response.bodyText
      = (if (env.engine.revalidatedPolicy { e.policy with purl := none }
            (policyRequestFrom url { req with
              headers := env.engine.revalidationHeadersOf { e.policy with purl := none }
                (policyRequestFrom url req) })
            (policyResponseFrom (env.fetchFn st.fc))).2
         then (env.fetchFn st.fc).bodyText else e.body) := by
  unfold handlePolicyCache
  simp only [hsk, Bool.not_false, eq_self_iff_true, if_true, storeGet, hentry,
    parseEntry, hre, Bool.false_eq_true, if_false]
  constructor
  · rw [(storeResponse_frame env _ url _ req _ cacheKey (optsArgOf co)).2.1]
    rfl
  · rw [(storeResponse_frame env _ url _ req _ cacheKey (optsArgOf co)).1]
    rfl

/-- C4: a request that reaches the revalidation path (a stored entry exists
but is not reusable) performs exactly one origin fetch, carrying the policy
engine's conditional revalidation headers; if the engine's reconciliation
reports "not modified" the returned response carries the previously stored
body, and if it reports "modified" it carries the revalidation response's
body. -/
theorem revalidation_single_conditional_fetch :
    ∀ (env : HCEnv) (store : List (String × CacheVal)) (url : String)
      (requestOpts : HCRequest) (cacheKey : String) (e : PolicyCacheEntry)
      (co : Option CacheOptionsV) (m : String),
      requestOpts.method = some m →
      m ≠ "HEAD" →
      requestOpts.skipCache = false →
      (co.bind (·.cacheStrategy)).getD "default" ≠ "object" →
      sLookup store cacheKey = some (.entryV e) →
      reuseCheck env e url requestOpts = false →
      (httpCacheFetch env store url requestOpts ⟨some cacheKey, optsArgOf co⟩).2.origins
        = [⟨url, m, env.engine.revalidationHeadersOf { e.policy with purl := none }
            (policyRequestFrom url requestOpts)⟩]
      ∧ (httpCacheFetch env store url requestOpts
          ⟨some cacheKey, optsArgOf co⟩).1.response.bodyText
        = (if (env.engine.revalidatedPolicy { e.policy with purl := none }
              (policyRequestFrom url { requestOpts with
                headers := env.engine.revalidationHeadersOf { e.policy with purl := none }
                  (policyRequestFrom url requestOpts) })
              (policyResponseFrom (env.fetchFn 0))).2
           then (env.fetchFn 0).bodyText else e.body) := by
  intro env store url requestOpts cacheKey e co m hm hmh hsk hcs hentry hre
  obtain ⟨mo, hh, sk⟩ := requestOpts
  simp only [] at hm hsk
  subst hm
  subst hsk
  unfold httpCacheFetch
  dsimp only
  rw [if_neg (by simpa using hmh)]
  cases co with
  | none =>
    dsimp only [optsArgOf]
    have h := handlePolicyCache_reval env ⟨store, 0, [], [], []⟩ url ⟨some m, hh, false⟩
      cacheKey none e rfl hentry hre
    exact ⟨by simpa using h.1, by simpa using h.2⟩
  | some o =>
    dsimp only [optsArgOf]
    rw [if_neg (by simpa using hcs)]
    have h := handlePolicyCache_reval env ⟨store, 0, [], [], []⟩ url ⟨some m, hh, false⟩
      cacheKey (some o) e rfl hentry hre
    exact ⟨by simpa using h.1, by simpa using h.2⟩

/-- Witness for C4: a stored entry without `ttlOverride`, an engine whose
freshness check fails and whose reconciliation reports "not modified": one
conditional origin fetch, and the stored body is returned. -/
theorem revalidation_single_conditional_fetch_witness :
    cReqGET.method = some "GET" ∧ "GET" ≠ "HEAD" ∧ cReqGET.skipCache = false
    ∧ ((none : Option CacheOptionsV).bind (·.cacheStrategy)).getD "default" ≠ "object"
    ∧ sLookup [("K", .entryV cEntryNoTtl)] "K" = some (.entryV cEntryNoTtl)
    ∧ reuseCheck cEnv cEntryNoTtl "u" cReqGET = false
    ∧ ((httpCacheFetch cEnv [("K", .entryV cEntryNoTtl)] "u" cReqGET
        ⟨some "K", optsArgOf none⟩).2.origins
      = [⟨"u", "GET", cEnv.engine.revalidationHeadersOf
          { cEntryNoTtl.policy with purl := none } (policyRequestFrom "u" cReqGET)⟩]
      ∧ (httpCacheFetch cEnv [("K", .entryV cEntryNoTtl)] "u" cReqGET
          ⟨some "K", optsArgOf none⟩).1.response.bodyText
        = (if (cEnv.engine.revalidatedPolicy { cEntryNoTtl.policy with purl := none }
              (policyRequestFrom "u" { cReqGET with
                headers := cEnv.engine.revalidationHeadersOf
                  { cEntryNoTtl.policy with purl := none }
                  (policyRequestFrom "u" cReqGET) })
              (policyResponseFrom (cEnv.fetchFn 0))).2
           then (cEnv.fetchFn 0).bodyText else cEntryNoTtl.body)) :=
  ⟨rfl, by decide, rfl, by decide, rfl, rfl,
    revalidation_single_conditional_fetch cEnv [("K", .entryV cEntryNoTtl)] "u" cReqGET
      "K" cEntryNoTtl none "GET" rfl (by decide) rfl (by decide) rfl rfl⟩

/-- C6: a request with method HEAD goes straight to the origin fetch: no
store read, no store write, no cache-write handle, the store is left
unchanged (so a second sequential HEAD call performs its own origin fetch
too), even when a TTL override is supplied in `cache.cacheOptions`. -/
theorem head_requests_bypass_cache :
    ∀ (env : HCEnv) (store : List (String × CacheVal)) (url : String)
      (requestOpts : HCRequest) (cache : CacheCtx),
      requestOpts.method = some "HEAD" →
        (httpCacheFetch env store url requestOpts cache).1
          = ⟨env.fetchFn 0, none, none⟩
        ∧ (httpCacheFetch env store url requestOpts cache).2.origins
          = [⟨url, "HEAD", requestOpts.headers⟩]
        ∧ (httpCacheFetch env store url requestOpts cache).2.gets = []
        ∧ (httpCacheFetch env store url requestOpts cache).2.sets = []
        ∧ (httpCacheFetch env store url requestOpts cache).2.store = store
        ∧ (httpCacheFetch env (httpCacheFetch env store url requestOpts cache).2.store
            url requestOpts cache).2.origins = [⟨url, "HEAD", requestOpts.headers⟩] := by
  intro env store url requestOpts cache hm
  obtain ⟨mo, hh, sk⟩ := requestOpts
  simp only [] at hm
  subst hm
  exact ⟨rfl, rfl, rfl, rfl, rfl, rfl⟩

/-- Witness for C6 with a TTL override supplied and a populated store. -/
theorem head_requests_bypass_cache_witness :
    (HCRequest.mk (some "HEAD") [] false).method = some "HEAD"
    ∧ ((httpCacheFetch cEnv [("K", .entryV cEntryTtl)] "u" ⟨some "HEAD", [], false⟩
        ⟨some "K", .staticOpts ⟨some 60, none⟩⟩).1
      = ⟨cEnv.fetchFn 0, none, none⟩
      ∧ (httpCacheFetch cEnv [("K", .entryV cEntryTtl)] "u" ⟨some "HEAD", [], false⟩
          ⟨some "K", .staticOpts ⟨some 60, none⟩⟩).2.origins
        = [⟨"u", "HEAD", (HCRequest.mk (some "HEAD") [] false).headers⟩]
      ∧ (httpCacheFetch cEnv [("K", .entryV cEntryTtl)] "u" ⟨some "HEAD", [], false⟩
          ⟨some "K", .staticOpts ⟨some 60, none⟩⟩).2.gets = []
      ∧ (httpCacheFetch cEnv [("K", .entryV cEntryTtl)] "u" ⟨some "HEAD", [], false⟩
          ⟨some "K", .staticOpts ⟨some 60, none⟩⟩).2.sets = []
      ∧ (httpCacheFetch cEnv [("K", .entryV cEntryTtl)] "u" ⟨some "HEAD", [], false⟩
          ⟨some "K", .staticOpts ⟨some 60, none⟩⟩).2.store = [("K", .entryV cEntryTtl)]
      ∧ (httpCacheFetch cEnv
          (httpCacheFetch cEnv [("K", .entryV cEntryTtl)] "u" ⟨some "HEAD", [], false⟩
            ⟨some "K", .staticOpts ⟨some 60, none⟩⟩).2.store
          "u" ⟨some "HEAD", [], false⟩ ⟨some "K", .staticOpts ⟨some 60, none⟩⟩).2.origins
        = [⟨"u", "HEAD", (HCRequest.mk (some "HEAD") [] false).headers⟩]) :=
  ⟨rfl, head_requests_bypass_cache cEnv [("K", .entryV cEntryTtl)] "u"
    ⟨some "HEAD", [], false⟩ ⟨some "K", .staticOpts ⟨some 60, none⟩⟩ rfl⟩

/-- C3 (the code at the failing input): a fresh stored entry sits under key
"K" with `ttlOverride = 30` and age 10 (the reuse condition holds, first
conjunct), yet a GET whose `cacheOptions` is given as a function performs an
origin fetch, never reads the store, and returns the origin body — the
function-valued-`cacheOptions` branch of `HTTPCache.fetch` bypasses the cache
lookup entirely.  The last two conjuncts show the same request with no
`cacheOptions` is served from the store with zero origin fetches, as the
claim (and the repository's own tests) expect. -/
theorem fn_cacheOptions_bypasses_fresh_entry :
    reuseCheck cEnv cEntryTtl "u" cReqGET = true
    ∧ (httpCacheFetch cEnv [("K", .entryV cEntryTtl)] "u" cReqGET
        ⟨some "K", .fnOpts (fun _ _ _ => some ⟨some 1000000, none⟩)⟩).2.origins.length = 1
    ∧ (httpCacheFetch cEnv [("K", .entryV cEntryTtl)] "u" cReqGET
        ⟨some "K", .fnOpts (fun _ _ _ => some ⟨some 1000000, none⟩)⟩).2.gets = []
    ∧ (httpCacheFetch cEnv [("K", .entryV cEntryTtl)] "u" cReqGET
        ⟨some "K", .fnOpts (fun _ _ _ => some ⟨some 1000000, none⟩)⟩).1.response.bodyText
      = "fresh"
    ∧ (httpCacheFetch cEnv [("K", .entryV cEntryTtl)] "u" cReqGET
        ⟨some "K", .noOpts⟩).2.origins = []
    ∧ (httpCacheFetch cEnv [("K", .entryV cEntryTtl)] "u" cReqGET
        ⟨some "K", .noOpts⟩).1.response.bodyText = "cached" :=
  ⟨rfl, rfl, rfl, rfl, rfl, rfl⟩

/-- C9 (the code at the failing input): when the background store write
rejects, the caller's call still succeeds, but the write error is logged by
the `console.error` catch attached inside `HTTPCache` — the returned write
handle resolves, so the overridable `catchCacheWritePromiseErrors` sink never
observes any error (its log stays empty).  An error thrown by the origin
fetch itself still rejects the whole call after `didEncounterError` ran. -/
theorem cache_write_failure_never_rejects_caller :
    c9Out.1.cacheWritePromise = some ⟨true, ["boom"]⟩
    ∧ c9Out.2.sets = [("K", .entryV ⟨⟨none, 200, "mk"⟩, some 60, "fresh"⟩, 60)]
    ∧ c9Out.2.store = []
    ∧ performRequest (.ok c9Out.1) = ⟨.okRes "fresh", 0, []⟩
    ∧ catchCacheWritePromiseErrors ⟨true, ["boom"]⟩ = []
    ∧ performRequest (.error "network failure") = ⟨.errRes, 1, []⟩ :=
  ⟨rfl, rfl, rfl, rfl, rfl, rfl⟩

end DataSourceRest
